import Mathlib

/-!
Shallow embedding of the DeepCrate analysis core
(`deepcrate/analysis/analyzer.py` and `deepcrate/analysis/camelot.py`).

Python floats are modelled as exact rationals, Python strings as Lean
strings (processed through their underlying `List Char`).  Library calls
whose numeric output is irrational or signal-dependent (librosa features,
`np.std`) enter the model as explicit inputs.
-/

namespace DeepCrate

/-- Python `round` to an integer: banker's rounding (round half to even). -/
def roundHalfEven (x : ℚ) : ℤ :=
  let f := ⌊x⌋
  let r := x - (f : ℚ)
  if r < 1/2 then f
  else if 1/2 < r then f + 1
  else if f % 2 = 0 then f else f + 1

/-- Python `round(x, 1)`. -/
def pyRound1 (x : ℚ) : ℚ := (roundHalfEven (10 * x) : ℚ) / 10

/-- Python `round(x, 2)`. -/
def pyRound2 (x : ℚ) : ℚ := (roundHalfEven (100 * x) : ℚ) / 100

/-- A nonempty all-digit character list read as a natural number. -/
def digitsToNat (ds : List Char) : Option Nat :=
  if ds = [] then none
  else if ds.all Char.isDigit then
    some (ds.foldl (fun acc c => 10 * acc + (c.toNat - '0'.toNat)) 0)
  else none

/-- Python `str.strip()` (on the character list). -/
def stripChars (s : List Char) : List Char :=
  ((s.dropWhile Char.isWhitespace).reverse.dropWhile Char.isWhitespace).reverse

/-- Python `str.strip()`. -/
def pyStrip (s : String) : String := ⟨stripChars s.data⟩

/-- Python `str.upper()` (the tags involved are ASCII). -/
def pyUpper (s : String) : String := ⟨s.data.map Char.toUpper⟩

/-- Python `int(s)` on optionally signed decimal literals with surrounding
whitespace, as applied to the Camelot number prefix. -/
def pyInt (s : List Char) : Option Int :=
  match stripChars s with
  | '-' :: ds => (digitsToNat ds).map (fun n => -(n : Int))
  | '+' :: ds => (digitsToNat ds).map (fun n => (n : Int))
  | ds => (digitsToNat ds).map (fun n => (n : Int))

/-! ## camelot.py -/

/-- `KEY_TO_CAMELOT`: mapping from musical key name to Camelot notation. -/
def KEY_TO_CAMELOT : List (String × String) :=
  [("C major", "8B"), ("G major", "9B"), ("D major", "10B"),
   ("A major", "11B"), ("E major", "12B"), ("B major", "1B"),
   ("F# major", "2B"), ("Gb major", "2B"), ("Db major", "3B"),
   ("C# major", "3B"), ("Ab major", "4B"), ("Eb major", "5B"),
   ("Bb major", "6B"), ("F major", "7B"),
   ("C minor", "5A"), ("G minor", "6A"), ("D minor", "7A"),
   ("A minor", "8A"), ("E minor", "9A"), ("B minor", "10A"),
   ("F# minor", "11A"), ("Gb minor", "11A"), ("Db minor", "12A"),
   ("C# minor", "12A"), ("Ab minor", "1A"), ("Eb minor", "2A"),
   ("Bb minor", "3A"), ("F minor", "4A")]

/-- `CHROMA_MAJOR`: chromagram index (0 = C, 1 = C#, ...) to key name. -/
def CHROMA_MAJOR : List String :=
  ["C major", "C# major", "D major", "Eb major", "E major", "F major",
   "F# major", "G major", "Ab major", "A major", "Bb major", "B major"]

/-- `CHROMA_MINOR`: chromagram index to minor key name. -/
def CHROMA_MINOR : List String :=
  ["C minor", "C# minor", "D minor", "Eb minor", "E minor", "F minor",
   "F# minor", "G minor", "Ab minor", "A minor", "Bb minor", "B minor"]

/-- `key_name_to_camelot`: convert a key name like `"A minor"` to `"8A"`. -/
def key_name_to_camelot (key_name : String) : String :=
  ((KEY_TO_CAMELOT.find? (fun p => p.1 == key_name)).map Prod.snd).getD ""

/-- `parse_camelot`: parse `"8A"` into `(8, 'A')`; `none` if invalid. -/
def parse_camelot (camelot : String) : Option (Int × Char) :=
  let c := (pyUpper (pyStrip camelot)).data
  if c.length < 2 then none
  else
    let letter := c.getLastD ' '
    if letter ≠ 'A' ∧ letter ≠ 'B' then none
    else
      match pyInt c.dropLast with
      | none => none
      | some number =>
          if 1 ≤ number ∧ number ≤ 12 then some (number, letter) else none

/-- Python f-string `f"{number}{letter}"`. -/
def camelotStr (number : Int) (letter : Char) : String :=
  toString number ++ letter.toString

/-- `compatible_keys`: harmonically compatible Camelot keys
(identity, plus/minus one wheel position, relative major/minor). -/
def compatible_keys (camelot : String) : List String :=
  match parse_camelot camelot with
  | none => []
  | some (number, letter) =>
    let up := (number % 12) + 1
    let down := ((number - 2) % 12) + 1
    let other := if letter = 'A' then 'B' else 'A'
    [camelotStr number letter, camelotStr up letter,
     camelotStr down letter, camelotStr number other]

/-- `key_compatibility_score`: 0-to-1 compatibility score of two Camelot keys. -/
def key_compatibility_score (key_a key_b : String) : ℚ :=
  if key_a = "" ∨ key_b = "" then 1/2
  else
    match parse_camelot key_a, parse_camelot key_b with
    | none, _ => 1/2
    | some _, none => 1/2
    | some (num_a, let_a), some (num_b, let_b) =>
      if pyUpper key_a = pyUpper key_b then 1
      else if ((compatible_keys key_a).map pyUpper).contains (pyUpper key_b) then 4/5
      else
        let d := (num_a - num_b).natAbs
        let dist := min d (12 - d)
        if dist = 2 ∧ let_a = let_b then 1/2
        else 1/5

/-! ## analyzer.py: BPM tag parsing and normalization -/

/-- The `while bpm > 260.0: bpm /= 2.0` loop in `parse_bpm_tag`. -/
def halveTo260 (bpm : ℚ) : ℚ :=
  if 260 < bpm then halveTo260 (bpm / 2) else bpm
termination_by (Int.ceil bpm).toNat
decreasing_by
  rename_i h
  have h2 : ⌈bpm / 2⌉ ≤ ⌈bpm - (1 : ℤ)⌉ := Int.ceil_le_ceil (by push_cast; linarith)
  have h3 : ⌈bpm - (1 : ℤ)⌉ = ⌈bpm⌉ - 1 := Int.ceil_sub_int bpm 1
  have h4 : (260 : ℤ) < ⌈bpm⌉ := Int.lt_ceil.mpr (by exact_mod_cast h)
  omega

/-- The `while bpm > 190.0: bpm /= 2.0` loop in `_normalize_bpm`. -/
def halveTo190 (bpm : ℚ) : ℚ :=
  if 190 < bpm then halveTo190 (bpm / 2) else bpm
termination_by (Int.ceil bpm).toNat
decreasing_by
  rename_i h
  have h2 : ⌈bpm / 2⌉ ≤ ⌈bpm - (1 : ℤ)⌉ := Int.ceil_le_ceil (by push_cast; linarith)
  have h3 : ⌈bpm - (1 : ℤ)⌉ = ⌈bpm⌉ - 1 := Int.ceil_sub_int bpm 1
  have h4 : (190 : ℤ) < ⌈bpm⌉ := Int.lt_ceil.mpr (by exact_mod_cast h)
  omega

/-- The `while bpm < 70.0: bpm *= 2.0` loop in `_normalize_bpm`.  The source
reaches this loop only with `bpm > 0` (the function returns `0.0` earlier
otherwise); the positivity test keeps the Lean model total on the inputs
where the Python loop would not terminate. -/
def doubleTo70 (bpm : ℚ) : ℚ :=
  if 0 < bpm ∧ bpm < 70 then doubleTo70 (bpm * 2) else bpm
termination_by (Int.ceil (70 / bpm)).toNat
decreasing_by
  rename_i h
  obtain ⟨hpos, hlt⟩ := h
  have hc1 : (1 : ℚ) < 70 / bpm := (one_lt_div hpos).mpr hlt
  have hkey : 70 / (bpm * 2) = 70 / bpm / 2 := by ring
  have hceil : ⌈70 / bpm / 2⌉ < ⌈70 / bpm⌉ := by
    rcases le_or_lt (70 / bpm) 2 with hle | hgt
    · have ha : ⌈70 / bpm / 2⌉ ≤ 1 := Int.ceil_le.mpr (by push_cast; linarith)
      have hb : (1 : ℤ) < ⌈70 / bpm⌉ := Int.lt_ceil.mpr (by exact_mod_cast hc1)
      omega
    · have ha : ⌈70 / bpm / 2⌉ ≤ ⌈70 / bpm - (1 : ℤ)⌉ :=
        Int.ceil_le_ceil (by push_cast; linarith)
      have hb : ⌈70 / bpm - (1 : ℤ)⌉ = ⌈70 / bpm⌉ - 1 := Int.ceil_sub_int _ 1
      omega
  have hpos2 : (0 : ℤ) < ⌈70 / bpm⌉ := Int.ceil_pos.mpr (by linarith)
  rw [hkey]
  omega

/-- `_normalize_bpm`: normalize tempo to a practical DJ range. -/
def normalize_bpm (raw_bpm : ℚ) : ℚ :=
  if raw_bpm ≤ 0 then 0 else halveTo190 (doubleTo70 raw_bpm)

/-- Value of a digit run (already known to be all digits). -/
def digitsVal (ds : List Char) : ℕ :=
  ds.foldl (fun acc c => 10 * acc + (c.toNat - '0'.toNat)) 0

/-- Leftmost match of `\d+(?:[\.,]\d+)?`: the digits of the integer part
and of the optional fractional part (empty when absent). -/
def findNumToken : List Char → Option (List Char × List Char)
  | [] => none
  | c :: rest =>
    if c.isDigit then
      let intPart := (c :: rest).takeWhile Char.isDigit
      let after := (c :: rest).dropWhile Char.isDigit
      match after with
      | sep :: d :: _ =>
        if (sep = '.' ∨ sep = ',') ∧ d.isDigit then
          some (intPart, (after.drop 1).takeWhile Char.isDigit)
        else some (intPart, [])
      | _ => some (intPart, [])
    else findNumToken rest

/-- `parse_bpm_tag`: parse BPM from metadata fields like `"174"`,
`"174,5 BPM"`.  The matched decimal token is read exactly (commas as
decimal points); `np.isfinite` is always true for a parsed token. -/
def parse_bpm_tag (value : String) : ℚ :=
  if value = "" then 0
  else
    match findNumToken value.data with
    | none => 0
    | some (ip, fp) =>
      let bpm : ℚ := (digitsVal ip : ℚ) + (digitsVal fp : ℚ) / (10 : ℚ) ^ fp.length
      if bpm ≤ 0 then 0
      else
        let b2 := halveTo260 bpm
        if b2 < 40 ∨ 260 < b2 then 0 else pyRound1 b2

/-- The value returned by `detect_bpm`: every `return` statement of
`detect_bpm` has the form `round(_normalize_bpm(t), 1)` for the fused
best tempo `t` (lines 375 and 419), which enters the model as an input. -/
def detect_bpm_result (best_tempo : ℚ) : ℚ := pyRound1 (normalize_bpm best_tempo)

/-- The `bpm` field of the Track built by `analyze_track` (line 626):
the parsed BPM tag when positive, otherwise the detected BPM. -/
def analyze_track_bpm (bpm_tag : String) (best_tempo : ℚ) : ℚ :=
  let metadata_bpm := parse_bpm_tag bpm_tag
  if 0 < metadata_bpm then metadata_bpm else detect_bpm_result best_tempo

/-! ## analyzer.py: review classification -/

/-- `classify_review_flags`: pure review-flag classifier. -/
def classify_review_flags (title artist : String) (bpm : ℚ) (musical_key : String)
    (energy_level energy_confidence duration : ℚ) : Bool × String :=
  let reasons : List String :=
    (if energy_confidence < 0.55 then ["Low energy confidence"] else []) ++
    (if energy_level ≤ 0.03 ∨ 0.97 ≤ energy_level then ["Energy at boundary"] else []) ++
    (if 0 < duration ∧ duration < 45 then ["Very short duration"] else []) ++
    (if pyStrip title = "" then ["Missing title"] else []) ++
    (if pyStrip artist = "" then ["Missing artist"] else []) ++
    (if bpm ≤ 0 then ["Missing BPM"] else []) ++
    (if pyStrip musical_key = "" then ["Missing key"] else [])
  (decide (0 < reasons.length), String.intercalate " | " reasons)

/-! ## analyzer.py: key tag parsing -/

/-- `_NOTE_ALIAS_TO_CANONICAL`: accidental/enharmonic alias table. -/
def NOTE_ALIAS_TO_CANONICAL : List (String × String) :=
  [("C", "C"), ("B#", "C"), ("C#", "C#"), ("DB", "Db"), ("D", "D"),
   ("D#", "Eb"), ("EB", "Eb"), ("E", "E"), ("FB", "E"), ("E#", "F"),
   ("F", "F"), ("F#", "F#"), ("GB", "Gb"), ("G", "G"), ("G#", "Ab"),
   ("AB", "Ab"), ("A", "A"), ("A#", "Bb"), ("BB", "Bb"), ("B", "B"),
   ("CB", "B")]

/-- Python `re.sub(r"\s+", "", s)`. -/
def removeWS (s : List Char) : List Char := s.filter (fun c => ¬ c.isWhitespace)

/-- Case-insensitive prefix removal: drop a lowered candidate from the
front of `rest`, returning the remainder when it matches. -/
def dropLowerPrefix : List Char → List Char → Option (List Char)
  | rest, [] => some rest
  | [], _ :: _ => none
  | r :: rs, c :: cs => if r.toLower = c then dropLowerPrefix rs cs else none

/-- The alternatives of the regex group `(maj(?:or)?|min(?:or)?|m)` in
backtracking order, already lowercased. -/
def modeCandidates : List (List Char) :=
  [['m', 'a', 'j', 'o', 'r'], ['m', 'a', 'j'],
   ['m', 'i', 'n', 'o', 'r'], ['m', 'i', 'n'], ['m']]

/-- Match `(maj(?:or)?|min(?:or)?|m)?\s*$` case-insensitively against the
tail of the input, returning the lowered mode token (possibly empty). -/
def matchModeEnd (rest : List Char) : Option (List Char) :=
  match modeCandidates.find? (fun cand =>
      match dropLowerPrefix rest cand with
      | some rem => rem.all Char.isWhitespace
      | none => false) with
  | some cand => some cand
  | none => if rest.all Char.isWhitespace then some [] else none

/-- Characters matched by `[#b♭♯]` under `re.IGNORECASE` (the class also
matches an uppercase `B`). -/
def isAccidentalChar (c : Char) : Bool :=
  c = '#' || c = 'b' || c = 'B' || c = '♭' || c = '♯'

/-- `re.match(r"^\s*([A-Ga-g])\s*([#b♭♯]?)\s*(maj(?:or)?|min(?:or)?|m)?\s*$", s, re.IGNORECASE)`:
returns the uppercased note letter, the accidental character as written
(when present) and the lowered mode token. -/
def matchKeyRegex (s : List Char) : Option (Char × Option Char × List Char) :=
  match s.dropWhile Char.isWhitespace with
  | [] => none
  | c :: rest =>
    if 'A' ≤ c.toUpper ∧ c.toUpper ≤ 'G' then
      let afterLetter := rest.dropWhile Char.isWhitespace
      match afterLetter with
      | a :: rest2 =>
        if isAccidentalChar a then
          match matchModeEnd (rest2.dropWhile Char.isWhitespace) with
          | some mode => some (c.toUpper, some a, mode)
          | none => none
        else
          match matchModeEnd afterLetter with
          | some mode => some (c.toUpper, none, mode)
          | none => none
      | [] =>
        match matchModeEnd afterLetter with
        | some mode => some (c.toUpper, none, mode)
        | none => none
    else none

/-- `parse_key_tag_to_camelot`: parse common key tag formats
(`"Am"`, `"8A"`, `"F# minor"`) into Camelot notation. -/
def parse_key_tag_to_camelot (value : String) : String :=
  if value = "" then ""
  else
    let cleaned := pyStrip value
    match parse_camelot cleaned with
    | some (number, letter) => camelotStr number letter
    | none =>
      let key_compact := (removeWS cleaned.data).map Char.toUpper
      match KEY_TO_CAMELOT.find?
          (fun p => key_compact == (removeWS p.1.data).map Char.toUpper) with
      | some p => p.2
      | none =>
        match matchKeyRegex cleaned.data with
        | none => ""
        | some (letter, accidental_raw, mode_token) =>
          let accidental : List Char :=
            if accidental_raw = some '#' ∨ accidental_raw = some '♯' then ['#']
            else if accidental_raw = some 'b' ∨ accidental_raw = some '♭' then ['B']
            else []
          let is_minor := mode_token ≠ [] ∧ mode_token.headD ' ' = 'm' ∧
            ¬ mode_token.take 3 = ['m', 'a', 'j']
          match NOTE_ALIAS_TO_CANONICAL.find?
              (fun p => p.1 == String.mk (letter :: accidental)) with
          | none => ""
          | some p =>
            key_name_to_camelot
              (p.2 ++ " " ++ (if is_minor then "minor" else "major"))

/-! ## analyzer.py: key detection (selection loop) -/

/-- Modelled interface of `detect_key` (lines 422-473).  The harmonic
separation, chroma blending and `_safe_corr` calls are library numerics
over the signal; the 24 profile correlations enter the model as inputs
`majorCorr i` / `minorCorr i` for each of the 12 rotations.  The model
keeps the source's selection loop (strict improvement over a running best
starting from `(-1.0, "")`) and the final Camelot mapping. -/
def detect_key_model (ySize : ℕ) (majorCorr minorCorr : ℕ → ℚ) : String :=
  if ySize = 0 then ""
  else
    let step := fun (acc : ℚ × String) (i : ℕ) =>
      let acc1 := if majorCorr i > acc.1 then (majorCorr i, CHROMA_MAJOR.getD i "") else acc
      if minorCorr i > acc1.1 then (minorCorr i, CHROMA_MINOR.getD i "") else acc1
    key_name_to_camelot (((List.range 12).foldl step (-1, "")).2)

/-! ## analyzer.py: energy and confidence -/

/-- `np.mean` over a list (the callers only apply it to nonempty data). -/
def npMean (xs : List ℚ) : ℚ := xs.sum / xs.length

/-- `np.percentile` with the default linear interpolation. -/
def npPercentile (xs : List ℚ) (q : ℚ) : ℚ :=
  let sorted := xs.insertionSort (· ≤ ·)
  let pos := q / 100 * ((xs.length : ℚ) - 1)
  let i := Int.toNat ⌊pos⌋
  let frac := pos - (⌊pos⌋ : ℚ)
  let a := sorted.getD i 0
  let b := sorted.getD (i + 1) a
  a + frac * (b - a)

/-- `detect_energy_with_confidence` (lines 503-540).  The RMS and spectral
centroid frame series are library outputs and enter as inputs, as do the
two `np.std` values (irrational square roots, supplied to the model in
place of the library call). -/
def detect_energy_with_confidence (rms spectral_centroid : List ℚ)
    (rms_std centroid_std : ℚ) : ℚ × ℚ :=
  let rms_mean := npMean rms
  let rms_score := min (rms_mean / 0.15) 1
  let centroid_mean := npMean spectral_centroid
  let centroid_score := min (centroid_mean / 5000) 1
  let energy := pyRound2 (min (max (0.6 * rms_score + 0.4 * centroid_score) 0) 1)
  let dynamic_range :=
    if 0 < rms.length then npPercentile rms 95 - npPercentile rms 5 else 0
  let variance_ratio := rms_std / (rms_mean + 1/1000000)
  let centroid_ratio := centroid_std / (centroid_mean + 1/1000000)
  let silence_ratio :=
    if 0 < rms.length then
      ((rms.filter (fun v => v < max (rms_mean * 0.35) (1/1000000))).length : ℚ) / rms.length
    else 1
  let dynamic_score := min (dynamic_range / 0.12) 1
  let variance_score := min (variance_ratio / 0.8) 1
  let centroid_var_score := min (centroid_ratio / 0.8) 1
  let confidence := pyRound2 (min (max
    (0.25 + 0.35 * dynamic_score + 0.2 * variance_score
      + 0.2 * centroid_var_score - 0.2 * silence_ratio) 0) 1)
  (energy, confidence)

/-! ## analyzer.py: analysis window and preview cue -/

/-- The length of the slice requested by `load_analysis_window`
(lines 273-286): tracks under 180 s are loaded whole. -/
def load_analysis_window_window (duration : ℚ) : ℚ :=
  if duration < 180 then duration else min 120 (duration * 0.4)

/-- The absolute offset chosen by `load_analysis_window`. -/
def load_analysis_window_offset (duration : ℚ) : ℚ :=
  if duration < 180 then 0
  else min (max 30 (duration * 0.25)) (max (duration - min 120 (duration * 0.4)) 0)

/-- `_normalize_series`: min-max normalization with a degenerate-span guard. -/
def normalize_series (values : List ℚ) : List ℚ :=
  if values = [] then values
  else
    let low := values.foldl min (values.headD 0)
    let high := values.foldl max (values.headD 0)
    let span := high - low
    if span ≤ 1/1000000000 then values.map (fun _ => 0)
    else values.map (fun v => (v - low) / span)

/-- `librosa.times_like` frame times at hop length 512. -/
def frameTime (sr i : ℕ) : ℚ := (i : ℚ) * 512 / sr

/-- The masked `np.argmax` selection of `detect_preview_start`
(lines 569-574): restrict the frame times to `[min_local, local_max_start]`
and take the time of the first masked frame attaining the maximal saliency
score, falling back to `min_local` when no frame qualifies. -/
def preview_local_start (score : List ℚ) (sr : ℕ) (min_local local_max_start : ℚ) : ℚ :=
  let idxs := (List.range score.length).filter
    (fun i => min_local ≤ frameTime sr i ∧ frameTime sr i ≤ local_max_start)
  match idxs with
  | [] => min_local
  | i0 :: rest =>
    frameTime sr (rest.foldl (fun acc i =>
      if score.getD acc 0 < score.getD i 0 then i else acc) i0)

/-- `detect_preview_start` (lines 543-579).  The onset-strength and RMS
series are library outputs over the analysis window and enter as inputs;
`ySize` is the sample count of the window. -/
def detect_preview_start (onset_env rms : List ℚ) (ySize sr : ℕ)
    (duration analysis_offset preview_length : ℚ) : ℚ :=
  if duration ≤ preview_length + 5 then 0
  else if onset_env = [] ∨ rms = [] then
    pyRound1 (min (max analysis_offset 0) (max (duration - preview_length) 0))
  else
    let score := List.zipWith (fun o r => (0.65 * o + 0.35 * r : ℚ))
      (normalize_series onset_env) (normalize_series rms)
    let local_max_start := max ((ySize : ℚ) / sr - preview_length) 0
    if local_max_start ≤ 0 then
      pyRound1 (min (max analysis_offset 0) (max (duration - preview_length) 0))
    else
      let min_local := min 8 local_max_start
      let local_start := max (preview_local_start score sr min_local local_max_start - 4) 0
      pyRound1 (min (max (analysis_offset + local_start) 0)
        (max (duration - preview_length) 0))

/-! ## analyzer.py: file_hash (MD5 of the first 1MB, RFC 1321) -/

/-- 2^32, the word modulus of MD5. -/
def U32 : ℕ := 4294967296

/-- Bitwise complement within a 32-bit word. -/
def not32 (x : ℕ) : ℕ := 4294967295 - x

/-- 32-bit left rotation. -/
def rotl32 (x s : ℕ) : ℕ := ((x <<< s) % U32) ||| (x >>> (32 - s))

/-- The MD5 sine-derived constant table `K`. -/
def md5K : List ℕ :=
  [0xd76aa478, 0xe8c7b756, 0x242070db, 0xc1bdceee,
   0xf57c0faf, 0x4787c62a, 0xa8304613, 0xfd469501,
   0x698098d8, 0x8b44f7af, 0xffff5bb1, 0x895cd7be,
   0x6b901122, 0xfd987193, 0xa679438e, 0x49b40821,
   0xf61e2562, 0xc040b340, 0x265e5a51, 0xe9b6c7aa,
   0xd62f105d, 0x02441453, 0xd8a1e681, 0xe7d3fbc8,
   0x21e1cde6, 0xc33707d6, 0xf4d50d87, 0x455a14ed,
   0xa9e3e905, 0xfcefa3f8, 0x676f02d9, 0x8d2a4c8a,
   0xfffa3942, 0x8771f681, 0x6d9d6122, 0xfde5380c,
   0xa4beea44, 0x4bdecfa9, 0xf6bb4b60, 0xbebfbc70,
   0x289b7ec6, 0xeaa127fa, 0xd4ef3085, 0x04881d05,
   0xd9d4d039, 0xe6db99e5, 0x1fa27cf8, 0xc4ac5665,
   0xf4292244, 0x432aff97, 0xab9423a7, 0xfc93a039,
   0x655b59c3, 0x8f0ccc92, 0xffeff47d, 0x85845dd1,
   0x6fa87e4f, 0xfe2ce6e0, 0xa3014314, 0x4e0811a1,
   0xf7537e82, 0xbd3af235, 0x2ad7d2bb, 0xeb86d391]

/-- The MD5 per-round shift table `s`. -/
def md5S : List ℕ :=
  [7, 12, 17, 22, 7, 12, 17, 22, 7, 12, 17, 22, 7, 12, 17, 22,
   5, 9, 14, 20, 5, 9, 14, 20, 5, 9, 14, 20, 5, 9, 14, 20,
   4, 11, 16, 23, 4, 11, 16, 23, 4, 11, 16, 23, 4, 11, 16, 23,
   6, 10, 15, 21, 6, 10, 15, 21, 6, 10, 15, 21, 6, 10, 15, 21]

/-- The round function and message-word index of MD5 step `i`. -/
def md5F (i b c d : ℕ) : ℕ × ℕ :=
  if i < 16 then ((b &&& c) ||| (not32 b &&& d), i)
  else if i < 32 then ((d &&& b) ||| (not32 d &&& c), (5 * i + 1) % 16)
  else if i < 48 then (b ^^^ c ^^^ d, (3 * i + 5) % 16)
  else (c ^^^ (b ||| not32 d), (7 * i) % 16)

/-- One MD5 step on the state `(a, b, c, d)`. -/
def md5Step (M : List ℕ) (st : ℕ × ℕ × ℕ × ℕ) (i : ℕ) : ℕ × ℕ × ℕ × ℕ :=
  let (a, b, c, d) := st
  let (f, g) := md5F i b c d
  let f2 := (f + a + md5K.getD i 0 + M.getD g 0) % U32
  (d, (b + rotl32 f2 (md5S.getD i 0)) % U32, b, c)

/-- Process one 64-byte block (given as 16 little-endian words). -/
def md5ProcessBlock (st : ℕ × ℕ × ℕ × ℕ) (M : List ℕ) : ℕ × ℕ × ℕ × ℕ :=
  let (a, b, c, d) := (List.range 64).foldl (md5Step M) st
  ((st.1 + a) % U32, (st.2.1 + b) % U32, (st.2.2.1 + c) % U32, (st.2.2.2 + d) % U32)

/-- Group a byte list into little-endian 32-bit words. -/
def bytesToWords : List ℕ → List ℕ
  | b0 :: b1 :: b2 :: b3 :: rest =>
    (b0 + 256 * b1 + 65536 * b2 + 16777216 * b3) :: bytesToWords rest
  | _ => []

/-- MD5 padding: `0x80`, zeros to 56 mod 64, then the 64-bit little-endian
bit length. -/
def md5Pad (msg : List ℕ) : List ℕ :=
  let len := msg.length
  let bitLen := (8 * len) % 2 ^ 64
  msg ++ [128] ++ List.replicate ((119 - len % 64) % 64) 0 ++
    (List.range 8).map (fun i => bitLen / 256 ^ i % 256)

/-- Lowercase hex digit character of a nibble. -/
def hexChar (n : ℕ) : Char :=
  if n < 10 then Char.ofNat ('0'.toNat + n) else Char.ofNat ('a'.toNat + (n - 10))

/-- A 32-bit word as eight lowercase hex characters, little-endian bytes. -/
def wordToHexLE (w : ℕ) : List Char :=
  (List.range 4).flatMap (fun i =>
    let byte := w / 256 ^ i % 256
    [hexChar (byte / 16), hexChar (byte % 16)])

/-- MD5 hex digest of a byte list. -/
def md5Hex (msg : List ℕ) : String :=
  let padded := md5Pad msg
  let final := (List.range (padded.length / 64)).foldl
    (fun st k => md5ProcessBlock st (bytesToWords ((padded.drop (64 * k)).take 64)))
    (0x67452301, 0xefcdab89, 0x98badcfe, 0x10325476)
  ⟨wordToHexLE final.1 ++ wordToHexLE final.2.1 ++
   wordToHexLE final.2.2.1 ++ wordToHexLE final.2.2.2⟩

/-- `file_hash`: MD5 hex digest of the first 1MB (`f.read(1_048_576)`) of
the file content, modelled as a byte list. -/
def file_hash (content : List ℕ) : String := md5Hex (content.take 1048576)

/-! ## Claim-side (specification) definitions -/

/-- Modelled from the claim text of C2: one wheel position up, wrapping
12 to 1. -/
def wheelUp (n : ℤ) : ℤ := if n = 12 then 1 else n + 1

/-- Modelled from the claim text of C2: one wheel position down, wrapping
1 to 12. -/
def wheelDown (n : ℤ) : ℤ := if n = 1 then 12 else n - 1

/-- The opposite Camelot mode letter. -/
def oppositeMode (l : Char) : Char := if l = 'A' then 'B' else 'A'

/-- The specification-side restatement of `key_compatibility_score` after
amendment: unknown/unparsable keys are tested first, identity is
case-insensitive, and the two-step test uses the shortest wheel distance
mod 12. -/
def key_compatibility_score_spec (a b : String) : ℚ :=
  match parse_camelot a, parse_camelot b with
  | none, _ => 1/2
  | _, none => 1/2
  | some (na, la), some (nb, lb) =>
    if pyUpper a = pyUpper b then 1
    else if pyUpper b ∈ (compatible_keys a).map pyUpper then 4/5
    else if min ((na - nb) % 12) ((nb - na) % 12) = 2 ∧ la = lb then 1/2
    else 1/5

/-- The validity predicate used by claim C9 on a detected key string: the
last character is `A` or `B` and the prefix is an integer in 1..12. -/
def claimValidKey (s : String) : Bool :=
  (s.data.getLastD ' ' == 'A' || s.data.getLastD ' ' == 'B') &&
  (match digitsToNat s.data.dropLast with
   | some n => decide (1 ≤ n ∧ n ≤ 12)
   | none => false)

/-- The BPM field of `analyze_track` when the tag path is taken, stated as
the claim reads it: `analyze_track_bpm` with a positive parsed tag. -/
def bpm_tag_path_active (bpm_tag : String) : Prop := 0 < parse_bpm_tag bpm_tag

/-! ## Rounding lemmas -/

lemma roundHalfEven_le {x : ℚ} {n : ℤ} (h : x ≤ (n : ℚ)) : roundHalfEven x ≤ n := by
  have hf : ((⌊x⌋ : ℤ) : ℚ) ≤ x := Int.floor_le x
  simp only [roundHalfEven]
  split_ifs with h1 h2 h3
  · exact_mod_cast hf.trans h
  · have hx : ((⌊x⌋ : ℤ) : ℚ) < (n : ℚ) := by push_neg at h1; linarith
    have hn : ⌊x⌋ < n := by exact_mod_cast hx
    omega
  · exact_mod_cast hf.trans h
  · have hx : ((⌊x⌋ : ℤ) : ℚ) < (n : ℚ) := by push_neg at h1; linarith
    have hn : ⌊x⌋ < n := by exact_mod_cast hx
    omega

lemma le_roundHalfEven {x : ℚ} {n : ℤ} (h : (n : ℚ) ≤ x) : n ≤ roundHalfEven x := by
  have hf2 : x < ⌊x⌋ + 1 := Int.lt_floor_add_one x
  have hx : (n : ℚ) < ((⌊x⌋ : ℤ) : ℚ) + 1 := lt_of_le_of_lt h hf2
  have hn : n < ⌊x⌋ + 1 := by exact_mod_cast hx
  simp only [roundHalfEven]
  split_ifs <;> omega

lemma roundHalfEven_le_add_half (x : ℚ) : (roundHalfEven x : ℚ) ≤ x + 1/2 := by
  have hf : ((⌊x⌋ : ℤ) : ℚ) ≤ x := Int.floor_le x
  simp only [roundHalfEven]
  split_ifs with h1 h2 h3 <;> push_cast <;> linarith

lemma sub_half_le_roundHalfEven (x : ℚ) : x - 1/2 ≤ (roundHalfEven x : ℚ) := by
  have hf2 : x < ⌊x⌋ + 1 := Int.lt_floor_add_one x
  simp only [roundHalfEven]
  split_ifs with h1 h2 h3 <;> push_cast <;> linarith

lemma pyRound1_le_int {x : ℚ} {n : ℤ} (h : x ≤ (n : ℚ)) : pyRound1 x ≤ (n : ℚ) := by
  have h1 : roundHalfEven (10 * x) ≤ 10 * n := roundHalfEven_le (by push_cast; linarith)
  have h2 : ((roundHalfEven (10 * x) : ℤ) : ℚ) ≤ ((10 * n : ℤ) : ℚ) := by exact_mod_cast h1
  simp only [pyRound1]
  push_cast at h2
  linarith

lemma le_pyRound1_int {x : ℚ} {n : ℤ} (h : (n : ℚ) ≤ x) : (n : ℚ) ≤ pyRound1 x := by
  have h1 : 10 * n ≤ roundHalfEven (10 * x) := le_roundHalfEven (by push_cast; linarith)
  have h2 : ((10 * n : ℤ) : ℚ) ≤ ((roundHalfEven (10 * x) : ℤ) : ℚ) := by exact_mod_cast h1
  simp only [pyRound1]
  push_cast at h2
  linarith

lemma pyRound1_le_add (x : ℚ) : pyRound1 x ≤ x + 1/20 := by
  have := roundHalfEven_le_add_half (10 * x)
  simp only [pyRound1]
  linarith

lemma sub_le_pyRound1 (x : ℚ) : x - 1/20 ≤ pyRound1 x := by
  have := sub_half_le_roundHalfEven (10 * x)
  simp only [pyRound1]
  linarith

lemma pyRound2_le_int {x : ℚ} {n : ℤ} (h : x ≤ (n : ℚ)) : pyRound2 x ≤ (n : ℚ) := by
  have h1 : roundHalfEven (100 * x) ≤ 100 * n := roundHalfEven_le (by push_cast; linarith)
  have h2 : ((roundHalfEven (100 * x) : ℤ) : ℚ) ≤ ((100 * n : ℤ) : ℚ) := by exact_mod_cast h1
  simp only [pyRound2]
  push_cast at h2
  linarith

lemma le_pyRound2_int {x : ℚ} {n : ℤ} (h : (n : ℚ) ≤ x) : (n : ℚ) ≤ pyRound2 x := by
  have h1 : 100 * n ≤ roundHalfEven (100 * x) := le_roundHalfEven (by push_cast; linarith)
  have h2 : ((100 * n : ℤ) : ℚ) ≤ ((roundHalfEven (100 * x) : ℤ) : ℚ) := by exact_mod_cast h1
  simp only [pyRound2]
  push_cast at h2
  linarith

lemma pyRound2_lt {x y : ℚ} (h : x + 1/100 < y) : pyRound2 x < pyRound2 y := by
  have h1 := roundHalfEven_le_add_half (100 * x)
  have h2 := sub_half_le_roundHalfEven (100 * y)
  have h3 : (roundHalfEven (100 * x) : ℚ) < (roundHalfEven (100 * y) : ℚ) := by linarith
  have h4 : roundHalfEven (100 * x) < roundHalfEven (100 * y) := by exact_mod_cast h3
  simp only [pyRound2]
  have h5 : ((roundHalfEven (100 * x) : ℤ) : ℚ) + 1 ≤ ((roundHalfEven (100 * y) : ℤ) : ℚ) := by
    exact_mod_cast Int.add_one_le_iff.mpr h4
  linarith

lemma pyRound2_clamp01 (x : ℚ) :
    0 ≤ pyRound2 (min (max x 0) 1) ∧ pyRound2 (min (max x 0) 1) ≤ 1 := by
  have hlo : ((0 : ℤ) : ℚ) ≤ min (max x 0) 1 :=
    le_min (by push_cast; exact le_max_right x 0) (by norm_num)
  have hhi : min (max x 0) 1 ≤ ((1 : ℤ) : ℚ) := by push_cast; exact min_le_right _ 1
  constructor
  · have := le_pyRound2_int hlo; push_cast at this; linarith
  · have := pyRound2_le_int hhi; push_cast at this; linarith

/-! ## Loop lemmas -/

lemma halveTo260_of_le {b : ℚ} (h : b ≤ 260) : halveTo260 b = b := by
  rw [halveTo260]
  simp [not_lt.mpr h]

lemma halveTo260_of_gt {b : ℚ} (h : 260 < b) : halveTo260 b = halveTo260 (b / 2) := by
  rw [halveTo260]
  simp [h]

lemma halveTo260_le {b : ℚ} (h : 260 < b) : halveTo260 b ≤ 260 := by
  induction b using halveTo260.induct with
  | case1 b hgt ih =>
    rw [halveTo260_of_gt hgt]
    rcases le_or_lt (b / 2) 260 with h2 | h2
    · rw [halveTo260_of_le h2]; exact h2
    · exact ih h2
  | case2 b hle => exact absurd h (by simpa using hle)

lemma halveTo190_of_le {b : ℚ} (h : b ≤ 190) : halveTo190 b = b := by
  rw [halveTo190]
  simp [not_lt.mpr h]

lemma halveTo190_of_gt {b : ℚ} (h : 190 < b) : halveTo190 b = halveTo190 (b / 2) := by
  rw [halveTo190]
  simp [h]

lemma halveTo190_le {b : ℚ} (h : 190 < b) : halveTo190 b ≤ 190 := by
  induction b using halveTo190.induct with
  | case1 b hgt ih =>
    rw [halveTo190_of_gt hgt]
    rcases le_or_lt (b / 2) 190 with h2 | h2
    · rw [halveTo190_of_le h2]; exact h2
    · exact ih h2
  | case2 b hle => exact absurd h (by simpa using hle)

lemma halveTo190_ge {b : ℚ} (h : 70 ≤ b) : 70 ≤ halveTo190 b := by
  induction b using halveTo190.induct with
  | case1 b hgt ih =>
    rw [halveTo190_of_gt hgt]
    exact ih (by linarith)
  | case2 b hle => rwa [halveTo190_of_le (by simpa using hle)]

lemma doubleTo70_ge {b : ℚ} (h : 0 < b) : 70 ≤ doubleTo70 b := by
  induction b using doubleTo70.induct with
  | case1 b hc ih =>
    rw [doubleTo70]
    simp only [hc.1, hc.2, and_self, if_true]
    exact ih (by linarith [hc.1])
  | case2 b hc =>
    rw [doubleTo70]
    simp only [hc, if_false]
    push_neg at hc
    exact hc h

lemma normalize_bpm_of_nonpos {b : ℚ} (h : b ≤ 0) : normalize_bpm b = 0 := by
  simp [normalize_bpm, h]

lemma normalize_bpm_mem {b : ℚ} (h : 0 < b) :
    70 ≤ normalize_bpm b ∧ normalize_bpm b ≤ 190 := by
  have hd : 70 ≤ doubleTo70 b := doubleTo70_ge h
  have h1 : ¬ b ≤ 0 := not_le.mpr h
  simp only [normalize_bpm, h1, if_false]
  refine ⟨halveTo190_ge hd, ?_⟩
  rcases le_or_lt (doubleTo70 b) 190 with h2 | h2
  · rw [halveTo190_of_le h2]; exact h2
  · exact halveTo190_le h2

/-! ## Range of parse_bpm_tag and of the detected BPM -/

lemma parse_bpm_tag_range (s : String) :
    parse_bpm_tag s = 0 ∨ (40 ≤ parse_bpm_tag s ∧ parse_bpm_tag s ≤ 260) := by
  unfold parse_bpm_tag
  split_ifs with h1
  · exact Or.inl rfl
  · rcases ht : findNumToken s.data with _ | ⟨ip, fp⟩
    · exact Or.inl rfl
    · simp only
      split_ifs with h2 h3
      · exact Or.inl rfl
      · exact Or.inl rfl
      · push_neg at h3
        right
        obtain ⟨h40, h260⟩ := h3
        constructor
        · have := le_pyRound1_int (n := 40) (by push_cast; linarith)
          push_cast at this
          linarith
        · have := pyRound1_le_int (n := 260) (by push_cast; linarith)
          push_cast at this
          linarith

lemma detect_bpm_result_range (t : ℚ) :
    detect_bpm_result t = 0 ∨ (70 ≤ detect_bpm_result t ∧ detect_bpm_result t ≤ 190) := by
  unfold detect_bpm_result
  rcases le_or_lt t 0 with h | h
  · left
    rw [normalize_bpm_of_nonpos h]
    simp [pyRound1, roundHalfEven]
  · right
    obtain ⟨h70, h190⟩ := normalize_bpm_mem h
    constructor
    · have := le_pyRound1_int (n := 70) (by push_cast; linarith)
      push_cast at this
      linarith
    · have := pyRound1_le_int (n := 190) (by push_cast; linarith)
      push_cast at this
      linarith

/-! ## Structural helper lemmas -/

lemma parse_camelot_bounds {s : String} {n : ℤ} {l : Char}
    (h : parse_camelot s = some (n, l)) :
    1 ≤ n ∧ n ≤ 12 ∧ (l = 'A' ∨ l = 'B') := by
  simp only [parse_camelot] at h
  split_ifs at h with h1 h2
  · rcases hm : pyInt (pyUpper (pyStrip s)).data.dropLast with _ | m
    · rw [hm] at h
      simp at h
    · rw [hm] at h
      simp only at h
      split_ifs at h with h3
      · rw [Option.some.injEq, Prod.mk.injEq] at h
        obtain ⟨rfl, rfl⟩ := h
        push_neg at h2
        refine ⟨h3.1, h3.2, ?_⟩
        by_contra hc
        push_neg at hc
        exact absurd h2 (by tauto)

lemma getD_mem_cons {α : Type} (l : List α) (i : ℕ) (d : α) : l.getD i d ∈ d :: l := by
  induction l generalizing i with
  | nil => simp [List.getD]
  | cons x xs ih =>
    cases i with
    | zero =>
      rw [List.getD_cons_zero]
      exact List.mem_cons_of_mem _ (List.mem_cons_self _ _)
    | succ j =>
      rw [List.getD_cons_succ]
      rcases List.mem_cons.mp (ih j) with hh | hh
      · exact List.mem_cons.mpr (Or.inl hh)
      · exact List.mem_cons_of_mem _ (List.mem_cons_of_mem _ hh)

lemma foldl_choice_mem (score : List ℚ) (rest : List ℕ) (i0 : ℕ) :
    rest.foldl (fun acc i => if score.getD acc 0 < score.getD i 0 then i else acc) i0
      ∈ i0 :: rest := by
  induction rest generalizing i0 with
  | nil => simp
  | cons j js ih =>
    simp only [List.foldl_cons]
    rcases List.mem_cons.mp (ih (if score.getD i0 0 < score.getD j 0 then j else i0)) with h | h
    · rw [h]
      split_ifs
      · exact List.mem_cons_of_mem _ (List.mem_cons_self _ _)
      · exact List.mem_cons_self _ _
    · exact List.mem_cons_of_mem _ (List.mem_cons_of_mem _ h)

lemma pyRound1_clamp_bounds {off a d : ℚ} (h0 : 0 ≤ off) (ha : off ≤ a)
    (hup : a + 30 + 1/20 ≤ d) :
    off - 1/20 ≤ pyRound1 (min (max a 0) (max (d - 30) 0)) ∧
    pyRound1 (min (max a 0) (max (d - 30) 0)) + 30 ≤ d := by
  have h1 : max a 0 = a := max_eq_left (h0.trans ha)
  have h2 : max (d - 30) 0 = d - 30 := max_eq_left (by linarith)
  have h3 : min a (d - 30) = a := min_eq_left (by linarith)
  rw [h1, h2, h3]
  constructor
  · have := sub_le_pyRound1 a
    linarith
  · have := pyRound1_le_add a
    linarith

/-! ## Claim C2: compatible_keys -/

/-- C2 counterexample: the claim says `compatible_keys` gives five results
including the identity; on the valid code `"8A"` it returns four. -/
theorem C2_compatible_keys_counterexample : (compatible_keys "8A").length = 4 := by decide

/-- C2 (amended): for every valid Camelot code, `compatible_keys` returns
the code itself, the codes one wheel position up and down at the same mode
letter (wrapping 1 and 12), and the same position with the opposite mode
letter — four results including the identity; `compatible_keys "8A"`
contains 8A, 9A, 7A and 8B, `compatible_keys "12A"` includes 1A, and
`compatible_keys "1A"` includes 12A. -/
theorem C2_compatible_keys {c : String} {n : ℤ} {l : Char}
    (h : parse_camelot c = some (n, l)) :
    compatible_keys c =
      [camelotStr n l, camelotStr (wheelUp n) l,
       camelotStr (wheelDown n) l, camelotStr n (oppositeMode l)] ∧
    (compatible_keys c).length = 4 ∧
    ("8A" ∈ compatible_keys "8A" ∧ "9A" ∈ compatible_keys "8A" ∧
      "7A" ∈ compatible_keys "8A" ∧ "8B" ∈ compatible_keys "8A") ∧
    "1A" ∈ compatible_keys "12A" ∧ "12A" ∈ compatible_keys "1A" := by
  obtain ⟨hn1, hn2, hl⟩ := parse_camelot_bounds h
  have e1 : n % 12 + 1 = wheelUp n := by
    unfold wheelUp
    split_ifs with h12 <;> omega
  have e2 : (n - 2) % 12 + 1 = wheelDown n := by
    unfold wheelDown
    split_ifs with h12 <;> omega
  refine ⟨?_, ?_, ⟨by decide, by decide, by decide, by decide⟩, by decide, by decide⟩
  · simp only [compatible_keys, h, e1, e2, oppositeMode]
  · simp only [compatible_keys, h, List.length_cons, List.length_nil]

/-- C2 witness: the amended theorem applied at the concrete code `"8A"`. -/
theorem C2_compatible_keys_witness :
    parse_camelot "8A" = some (8, 'A') ∧
    compatible_keys "8A" =
      [camelotStr 8 'A', camelotStr (wheelUp 8) 'A',
       camelotStr (wheelDown 8) 'A', camelotStr 8 (oppositeMode 'A')] :=
  ⟨by decide, (C2_compatible_keys (by decide)).1⟩

/-! ## Claim C3: key_compatibility_score -/

/-- C3 counterexample: the claim returns 1.0 first whenever the two keys
are identical; the code checks parsability first, so the identical but
unparsable pair `("XX", "XX")` scores 0.5, not 1.0. -/
theorem C3_score_counterexample :
    key_compatibility_score "XX" "XX" = 1/2 ∧ ("XX" : String) = "XX" := by
  constructor
  · have ha : parse_camelot "XX" = none := by decide
    simp [key_compatibility_score, ha]
  · rfl

/-- C3 (amended): `key_compatibility_score` returns 0.5 when either key is
empty or unparsable (tested first), else 1.0 on case-insensitive identity,
0.8 when `b` is among `compatible_keys a` up to case, 0.5 when the shortest
wheel distance mod 12 is exactly 2 with matching mode letter, else 0.2 —
i.e. it agrees with the spec-side function everywhere. -/
theorem C3_score_refines (a b : String) :
    key_compatibility_score a b = key_compatibility_score_spec a b := by
  unfold key_compatibility_score key_compatibility_score_spec
  by_cases hab : a = "" ∨ b = ""
  · rw [if_pos hab]
    have he : parse_camelot "" = none := by decide
    rcases hab with rfl | rfl
    · rw [he]
      cases parse_camelot b <;> simp
    · rw [he]
      cases parse_camelot a <;> simp
  · rw [if_neg hab]
    cases hpa : parse_camelot a with
    | none => simp
    | some pa =>
      cases hpb : parse_camelot b with
      | none =>
        obtain ⟨na, la⟩ := pa
        simp
      | some pb =>
        obtain ⟨na, la⟩ := pa
        obtain ⟨nb, lb⟩ := pb
        obtain ⟨ha1, ha2, _⟩ := parse_camelot_bounds hpa
        obtain ⟨hb1, hb2, _⟩ := parse_camelot_bounds hpb
        simp only
        by_cases hu : pyUpper a = pyUpper b
        · rw [if_pos hu, if_pos hu]
        · rw [if_neg hu, if_neg hu]
          have hmem : (((compatible_keys a).map pyUpper).contains (pyUpper b) = true) ↔
              (pyUpper b ∈ (compatible_keys a).map pyUpper) := List.elem_iff
          by_cases hm : pyUpper b ∈ (compatible_keys a).map pyUpper
          · rw [if_pos (hmem.mpr hm), if_pos hm]
          · rw [if_neg (fun hcontra => hm (hmem.mp hcontra)), if_neg hm]
            have hiff : (min ((na - nb).natAbs) (12 - (na - nb).natAbs) = 2 ∧ la = lb) ↔
                (min ((na - nb) % 12) ((nb - na) % 12) = 2 ∧ la = lb) := by
              rw [Nat.min_def, Int.min_def]
              constructor
              · rintro ⟨hd, hll⟩
                refine ⟨?_, hll⟩
                split_ifs at hd ⊢ <;> omega
              · rintro ⟨hd, hll⟩
                refine ⟨?_, hll⟩
                split_ifs at hd ⊢ <;> omega
            rw [if_congr hiff rfl rfl]

/-! ## Claim C7: parse_bpm_tag -/

/-- C7: `parse_bpm_tag` returns 0 or a value in [40, 260]; `"174"` parses
to 174.0, `"174,5 BPM"` to 174.5, `"600"` is halved into range giving
150.0, and non-numeric text gives 0.0. -/
theorem C7_parse_bpm_tag :
    (∀ s : String, parse_bpm_tag s = 0 ∨ (40 ≤ parse_bpm_tag s ∧ parse_bpm_tag s ≤ 260)) ∧
    parse_bpm_tag "174" = 174 ∧ parse_bpm_tag "174,5 BPM" = 174.5 ∧
    parse_bpm_tag "600" = 150 ∧ parse_bpm_tag "unknown" = 0 := by
  refine ⟨parse_bpm_tag_range, ?_, ?_, ?_, ?_⟩
  · have ht : findNumToken ("174".data) = some (['1', '7', '4'], []) := by decide
    have hne : ¬ ("174" : String) = "" := by decide
    have hd : digitsVal ['1', '7', '4'] = 174 := by decide
    have hd0 : digitsVal ([] : List Char) = 0 := by decide
    simp only [parse_bpm_tag, ht, hd, hd0, if_neg hne]
    norm_num [halveTo260_of_le, pyRound1, roundHalfEven]
  · have ht : findNumToken ("174,5 BPM".data) = some (['1', '7', '4'], ['5']) := by decide
    have hne : ¬ ("174,5 BPM" : String) = "" := by decide
    have hd : digitsVal ['1', '7', '4'] = 174 := by decide
    have hd2 : digitsVal ['5'] = 5 := by decide
    simp only [parse_bpm_tag, ht, hd, hd2, if_neg hne, List.length_singleton]
    norm_num [halveTo260_of_le, pyRound1, roundHalfEven]
  · have ht : findNumToken ("600".data) = some (['6', '0', '0'], []) := by decide
    have hne : ¬ ("600" : String) = "" := by decide
    have hd : digitsVal ['6', '0', '0'] = 600 := by decide
    have hd0 : digitsVal ([] : List Char) = 0 := by decide
    simp only [parse_bpm_tag, ht, hd, hd0, if_neg hne, List.length_nil]
    rw [show ((600 : ℕ) : ℚ) + ((0 : ℕ) : ℚ) / (10 : ℚ) ^ (0 : ℕ) = 600 by norm_num]
    rw [halveTo260_of_gt (by norm_num), halveTo260_of_gt (by norm_num),
      halveTo260_of_le (by norm_num)]
    norm_num [pyRound1, roundHalfEven]
  · have ht : findNumToken ("unknown".data) = none := by decide
    simp [parse_bpm_tag, ht]

/-! ## Claim C1: the BPM octave-band invariant of analyze_track -/

/-- C1 counterexample: a BPM tag of `"260"` is accepted verbatim by the tag
path of `analyze_track`, so the record's bpm is 260, far outside the 70-190
octave band the claim asserts for both paths. -/
theorem C1_bpm_band_counterexample :
    analyze_track_bpm "260" 0 = 260 ∧ ¬ ((260 : ℚ) ≤ 190) := by
  have ht : findNumToken ("260".data) = some (['2', '6', '0'], []) := by decide
  have hne : ¬ ("260" : String) = "" := by decide
  have hd : digitsVal ['2', '6', '0'] = 260 := by decide
  have hd0 : digitsVal ([] : List Char) = 0 := by decide
  have hp : parse_bpm_tag "260" = 260 := by
    simp only [parse_bpm_tag, ht, hd, hd0, if_neg hne, List.length_nil]
    rw [show ((260 : ℕ) : ℚ) + ((0 : ℕ) : ℚ) / (10 : ℚ) ^ (0 : ℕ) = 260 by norm_num]
    rw [halveTo260_of_le (by norm_num)]
    norm_num [pyRound1, roundHalfEven]
  constructor
  · simp only [analyze_track_bpm, hp]
    norm_num
  · norm_num

/-- C1 (amended): the bpm field of the analyzed track is 0 or lies in
[40, 260]; on the signal-detection path (tag parse not positive) it is 0 or
lies in the normalized octave band [70, 190].  The tag path only enforces
the wider [40, 260] parse range. -/
theorem C1_bpm_band (tag : String) (t : ℚ) :
    (analyze_track_bpm tag t = 0 ∨
      (40 ≤ analyze_track_bpm tag t ∧ analyze_track_bpm tag t ≤ 260)) ∧
    (¬ bpm_tag_path_active tag →
      (analyze_track_bpm tag t = 0 ∨
        (70 ≤ analyze_track_bpm tag t ∧ analyze_track_bpm tag t ≤ 190))) := by
  unfold bpm_tag_path_active
  by_cases hp : 0 < parse_bpm_tag tag
  · simp only [analyze_track_bpm, if_pos hp]
    refine ⟨parse_bpm_tag_range tag, ?_⟩
    intro hcon
    exact absurd hp hcon
  · simp only [analyze_track_bpm, if_neg hp]
    constructor
    · rcases detect_bpm_result_range t with h | h
      · exact Or.inl h
      · exact Or.inr ⟨by linarith [h.1], by linarith [h.2]⟩
    · intro _
      exact detect_bpm_result_range t

/-- C1 witness: the amended theorem's detection-path conclusion at the
unparsable tag `"unknown"` and detected tempo 100. -/
theorem C1_bpm_band_witness :
    ¬ bpm_tag_path_active "unknown" ∧
    (analyze_track_bpm "unknown" 100 = 0 ∨
      (70 ≤ analyze_track_bpm "unknown" 100 ∧ analyze_track_bpm "unknown" 100 ≤ 190)) := by
  have ht : findNumToken ("unknown".data) = none := by decide
  have h : ¬ bpm_tag_path_active "unknown" := by
    unfold bpm_tag_path_active
    simp [parse_bpm_tag, ht]
  exact ⟨h, (C1_bpm_band "unknown" 100).2 h⟩

/-! ## Claim C5: classify_review_flags -/

/-- C5 counterexample: with duration 0 (short of 45 s) and every other
field valid, the code raises no review flag, because its duration test is
`0 < duration < 45`, not `duration < 45` as the claim states. -/
theorem C5_classify_counterexample :
    classify_review_flags "T" "A" 120 "8A" 0.5 0.8 0 = (false, "") ∧ (0 : ℚ) < 45 := by
  have h1 : ¬ pyStrip "T" = "" := by decide
  have h2 : ¬ pyStrip "A" = "" := by decide
  have h3 : ¬ pyStrip "8A" = "" := by decide
  constructor
  · simp only [classify_review_flags, if_neg h1, if_neg h2, if_neg h3]
    norm_num
    decide
  · norm_num

/-- C5 (amended): `classify_review_flags` flags a record exactly when
confidence < 0.55, energy ≤ 0.03 or ≥ 0.97, duration strictly between 0
and 45 s (a zero/unknown duration is not flagged), or title, artist, BPM
or key are missing; confidence 0.32 with all other fields valid yields
`needs_review = true` with the low-confidence reason. -/
theorem C5_classify_review_flags :
    (∀ (title artist : String) (bpm : ℚ) (key : String) (e conf dur : ℚ),
      (classify_review_flags title artist bpm key e conf dur).1 = true ↔
        (conf < 0.55 ∨ (e ≤ 0.03 ∨ 0.97 ≤ e) ∨ (0 < dur ∧ dur < 45) ∨
         pyStrip title = "" ∨ pyStrip artist = "" ∨ bpm ≤ 0 ∨ pyStrip key = "")) ∧
    classify_review_flags "Track" "Artist" 174 "8A" 0.6 0.32 240 =
      (true, "Low energy confidence") := by
  constructor
  · intro title artist bpm key e conf dur
    simp only [classify_review_flags, decide_eq_true_eq, List.length_append,
      apply_ite List.length, List.length_singleton, List.length_nil]
    split_ifs <;> simp_all
  · have h1 : ¬ pyStrip "Track" = "" := by decide
    have h2 : ¬ pyStrip "Artist" = "" := by decide
    have h3 : ¬ pyStrip "8A" = "" := by decide
    simp only [classify_review_flags, if_neg h1, if_neg h2, if_neg h3]
    norm_num
    decide

/-! ## Claim C4: file_hash -/

/-- Sanity check of the MD5 model against the RFC 1321 digest of `"abc"`. -/
theorem md5Hex_abc : md5Hex [97, 98, 99] = "900150983cd24fb0d6963f7d28e17f72" := by decide

/-- C4 counterexample: two contents that agree on their first 1,048,576
bytes but differ afterwards always collide, because `file_hash` reads only
the first 1MB — the distinct digests the claim promises are impossible
here, not merely improbable. -/
theorem C4_file_hash_counterexample :
    file_hash (List.replicate 1048576 0 ++ [0]) = file_hash (List.replicate 1048576 0 ++ [1]) ∧
    List.replicate 1048576 0 ++ [0] ≠ List.replicate 1048576 0 ++ [1] := by
  constructor
  · unfold file_hash
    have h0 := List.take_left (List.replicate 1048576 (0 : ℕ)) [0]
    have h1 := List.take_left (List.replicate 1048576 (0 : ℕ)) [1]
    rw [List.length_replicate] at h0 h1
    rw [h0, h1]
  · intro h
    have := List.append_cancel_left h
    simp at this

/-- C4 (amended): `file_hash` is a deterministic function of the first
1,048,576 bytes — identical content, and more generally content agreeing
on the first 1MB, yields identical digests; distinct digests for different
content can hold (and then only with overwhelming probability, which is
not provable) only when the difference lies within the first 1MB. -/
theorem C4_file_hash (c1 c2 : List ℕ) (h : c1.take 1048576 = c2.take 1048576) :
    file_hash c1 = file_hash c2 := by
  unfold file_hash
  rw [h]

/-- C4 witness: the amended theorem applied to a concrete two-byte content. -/
theorem C4_file_hash_witness :
    ([0, 1] : List ℕ).take 1048576 = ([0, 1] : List ℕ).take 1048576 ∧
    file_hash [0, 1] = file_hash [0, 1] :=
  ⟨rfl, C4_file_hash _ _ rfl⟩

/-! ## Claim C8: parse_key_tag_to_camelot -/

/-- C8: `parse_key_tag_to_camelot` returns the exact Camelot parse
whenever the (stripped) tag is valid Camelot notation — the first branch —
and resolves the claim's examples: `"8A"`, `"Am"`, `"F# minor"`,
`"Bb major"`, and unparsable text. -/
theorem C8_parse_key_tag :
    (∀ (s : String) (n : ℤ) (l : Char), parse_camelot (pyStrip s) = some (n, l) →
      parse_key_tag_to_camelot s = camelotStr n l) ∧
    parse_key_tag_to_camelot "8A" = "8A" ∧
    parse_key_tag_to_camelot "Am" = "8A" ∧
    parse_key_tag_to_camelot "F# minor" = "11A" ∧
    parse_key_tag_to_camelot "Bb major" = "6B" ∧
    parse_key_tag_to_camelot "not-a-key" = "" := by
  refine ⟨?_, by decide, by decide, by decide, by decide, by decide⟩
  intro s n l h
  by_cases hs : s = ""
  · subst hs
    have he : parse_camelot (pyStrip "") = none := by decide
    rw [he] at h
    cases h
  · simp only [parse_key_tag_to_camelot, if_neg hs, h]

/-- C8 witness: the Camelot-first branch applied at the concrete tag `"8a"`. -/
theorem C8_parse_key_tag_witness :
    parse_camelot (pyStrip "8a") = some (8, 'A') ∧
    parse_key_tag_to_camelot "8a" = camelotStr 8 'A' :=
  ⟨by decide, C8_parse_key_tag.1 "8a" 8 'A' (by decide)⟩

/-! ## Claim C9: detect_key output form -/

lemma foldl_best_key_mem (f g : ℕ → ℚ) (l : List ℕ) (acc : ℚ × String)
    (h : acc.2 ∈ "" :: (CHROMA_MAJOR ++ CHROMA_MINOR)) :
    (l.foldl (fun acc i =>
        let acc1 := if f i > acc.1 then (f i, CHROMA_MAJOR.getD i "") else acc
        if g i > acc1.1 then (g i, CHROMA_MINOR.getD i "") else acc1) acc).2
      ∈ "" :: (CHROMA_MAJOR ++ CHROMA_MINOR) := by
  induction l generalizing acc with
  | nil => exact h
  | cons i is ih =>
    rw [List.foldl_cons]
    apply ih
    dsimp only
    have hmaj : CHROMA_MAJOR.getD i "" ∈ "" :: (CHROMA_MAJOR ++ CHROMA_MINOR) := by
      rcases List.mem_cons.mp (getD_mem_cons CHROMA_MAJOR i "") with hh | hh
      · exact List.mem_cons.mpr (Or.inl hh)
      · exact List.mem_cons.mpr (Or.inr (List.mem_append_left _ hh))
    have hmin : CHROMA_MINOR.getD i "" ∈ "" :: (CHROMA_MAJOR ++ CHROMA_MINOR) := by
      rcases List.mem_cons.mp (getD_mem_cons CHROMA_MINOR i "") with hh | hh
      · exact List.mem_cons.mpr (Or.inl hh)
      · exact List.mem_cons.mpr (Or.inr (List.mem_append_right _ hh))
    by_cases h2 : g i > (if f i > acc.1 then (f i, CHROMA_MAJOR.getD i "") else acc).1
    · rw [if_pos h2]
      exact hmin
    · rw [if_neg h2]
      by_cases h1 : f i > acc.1
      · rw [if_pos h1]
        exact hmaj
      · rw [if_neg h1]
        exact h

/-- C9: whatever the input signal produces for the 24 profile
correlations, `detect_key` returns either the empty string or a string
whose last character is `A` or `B` and whose numeric prefix is an integer
in 1..12. -/
theorem C9_detect_key_valid (ySize : ℕ) (majorCorr minorCorr : ℕ → ℚ) :
    detect_key_model ySize majorCorr minorCorr = "" ∨
    claimValidKey (detect_key_model ySize majorCorr minorCorr) = true := by
  unfold detect_key_model
  split_ifs with h0
  · exact Or.inl rfl
  · have hin := foldl_best_key_mem majorCorr minorCorr (List.range 12) (-1, "") (by simp)
    have hall : ∀ s ∈ ("" :: (CHROMA_MAJOR ++ CHROMA_MINOR)),
        key_name_to_camelot s = "" ∨ claimValidKey (key_name_to_camelot s) = true := by decide
    exact hall _ hin

/-! ## Claim C10: energy and confidence -/

/-- C10 counterexample: two signals both saturating the RMS term
(means 0.2 and 0.4, identical centroid) receive the same energy score,
so a materially louder signal need not score strictly higher. -/
theorem C10_energy_counterexample :
    (detect_energy_with_confidence [1/5] [1000] 0 0).1 =
      (detect_energy_with_confidence [2/5] [1000] 0 0).1 ∧
    npMean [(1 : ℚ)/5] < npMean [(2 : ℚ)/5] := by
  constructor
  · simp only [detect_energy_with_confidence]
    norm_num [npMean]
  · norm_num [npMean]

lemma energy_bounds_aux (rms cent : List ℚ) (s1 s2 : ℚ) :
    0 ≤ (detect_energy_with_confidence rms cent s1 s2).1 ∧
    (detect_energy_with_confidence rms cent s1 s2).1 ≤ 1 ∧
    0 ≤ (detect_energy_with_confidence rms cent s1 s2).2 ∧
    (detect_energy_with_confidence rms cent s1 s2).2 ≤ 1 := by
  simp only [detect_energy_with_confidence]
  exact ⟨(pyRound2_clamp01 _).1, (pyRound2_clamp01 _).2,
    (pyRound2_clamp01 _).1, (pyRound2_clamp01 _).2⟩

lemma energy_mono_aux (rms1 rms2 cent : List ℚ) (s1 s2 s3 s4 : ℚ)
    (h1 : 0 ≤ npMean rms1) (h2 : 0 ≤ npMean cent) (h3 : npMean rms2 ≤ 0.15)
    (h4 : npMean rms1 + 1/400 < npMean rms2) :
    (detect_energy_with_confidence rms1 cent s1 s2).1 <
      (detect_energy_with_confidence rms2 cent s3 s4).1 := by
  simp only [detect_energy_with_confidence]
  have hc0 : 0 ≤ min (npMean cent / 5000) 1 := le_min (by positivity) (by norm_num)
  have hc1 : min (npMean cent / 5000) 1 ≤ 1 := min_le_right _ 1
  have hm1 : min (npMean rms1 / 0.15) 1 = npMean rms1 / 0.15 :=
    min_eq_left (by rw [div_le_one (by norm_num)]; linarith)
  have hm2 : min (npMean rms2 / 0.15) 1 = npMean rms2 / 0.15 :=
    min_eq_left (by rw [div_le_one (by norm_num)]; linarith)
  rw [hm1, hm2]
  have hr1lo : 0 ≤ 0.6 * (npMean rms1 / 0.15) + 0.4 * min (npMean cent / 5000) 1 := by
    have : 0 ≤ npMean rms1 / 0.15 := by positivity
    linarith
  have hr2lo : 0 ≤ 0.6 * (npMean rms2 / 0.15) + 0.4 * min (npMean cent / 5000) 1 := by
    have : 0 ≤ npMean rms2 / 0.15 := div_nonneg (by linarith) (by norm_num)
    linarith
  have hr1hi : 0.6 * (npMean rms1 / 0.15) + 0.4 * min (npMean cent / 5000) 1 ≤ 1 := by
    have : npMean rms1 / 0.15 ≤ 1 := by rw [div_le_one (by norm_num)]; linarith
    linarith
  have hr2hi : 0.6 * (npMean rms2 / 0.15) + 0.4 * min (npMean cent / 5000) 1 ≤ 1 := by
    have : npMean rms2 / 0.15 ≤ 1 := by rw [div_le_one (by norm_num)]; linarith
    linarith
  rw [max_eq_left hr1lo, max_eq_left hr2lo, min_eq_left hr1hi, min_eq_left hr2hi]
  apply pyRound2_lt
  have hdiff : npMean rms2 / 0.15 - npMean rms1 / 0.15 > 1/60 := by
    rw [div_sub_div_same, gt_iff_lt, lt_div_iff₀ (by norm_num : (0:ℚ) < 0.15)]
    linarith
  linarith

/-- C10 (amended): energy and confidence always lie in [0, 1]; a louder
signal scores strictly higher only below the RMS saturation point: when
both mean RMS values are nonnegative, the louder mean is at most 0.15
(the saturation constant) and the gap exceeds 1/400 (the two-decimal
rounding quantum over the slope), the energy score strictly increases
under an identical spectral centroid. -/
theorem C10_energy :
    (∀ (rms cent : List ℚ) (s1 s2 : ℚ),
      0 ≤ (detect_energy_with_confidence rms cent s1 s2).1 ∧
      (detect_energy_with_confidence rms cent s1 s2).1 ≤ 1 ∧
      0 ≤ (detect_energy_with_confidence rms cent s1 s2).2 ∧
      (detect_energy_with_confidence rms cent s1 s2).2 ≤ 1) ∧
    (∀ (rms1 rms2 cent : List ℚ) (s1 s2 s3 s4 : ℚ),
      0 ≤ npMean rms1 → 0 ≤ npMean cent → npMean rms2 ≤ 0.15 →
      npMean rms1 + 1/400 < npMean rms2 →
      (detect_energy_with_confidence rms1 cent s1 s2).1 <
        (detect_energy_with_confidence rms2 cent s3 s4).1) :=
  ⟨energy_bounds_aux, energy_mono_aux⟩

/-- C10 witness: the monotonicity part of the amended theorem at mean RMS
0.1 versus 0.15 with a shared centroid frame. -/
theorem C10_energy_witness :
    0 ≤ npMean [(1 : ℚ)/10] ∧ 0 ≤ npMean [(1000 : ℚ)] ∧
    npMean [(3 : ℚ)/20] ≤ 0.15 ∧ npMean [(1 : ℚ)/10] + 1/400 < npMean [(3 : ℚ)/20] ∧
    (detect_energy_with_confidence [(1 : ℚ)/10] [1000] 0 0).1 <
      (detect_energy_with_confidence [(3 : ℚ)/20] [1000] 0 0).1 := by
  have h1 : 0 ≤ npMean [(1 : ℚ)/10] := by norm_num [npMean]
  have h2 : 0 ≤ npMean [(1000 : ℚ)] := by norm_num [npMean]
  have h3 : npMean [(3 : ℚ)/20] ≤ 0.15 := by norm_num [npMean]
  have h4 : npMean [(1 : ℚ)/10] + 1/400 < npMean [(3 : ℚ)/20] := by norm_num [npMean]
  exact ⟨h1, h2, h3, h4, C10_energy.2 _ _ _ 0 0 0 0 h1 h2 h3 h4⟩

/-! ## Claim C6: detect_preview_start -/

lemma preview_local_start_le (score : List ℚ) (sr : ℕ) (L : ℚ) :
    preview_local_start score sr (min 8 L) L ≤ max 8 L := by
  unfold preview_local_start
  rcases hidx : (List.range score.length).filter
      (fun i => decide (min 8 L ≤ frameTime sr i ∧ frameTime sr i ≤ L)) with _ | ⟨i0, rest⟩
  · simp only [hidx]
    exact le_trans (min_le_left _ _) (le_max_left _ _)
  · simp only [hidx]
    have hmem := foldl_choice_mem score rest i0
    rw [← hidx] at hmem
    simp only [List.mem_filter, decide_eq_true_eq] at hmem
    exact le_trans hmem.2.2 (le_max_right _ _)

/-- C6 counterexample: on a degenerate saliency input (empty onset series)
for a 200.16 s track, the cue is the window offset 50.04 rounded to one
decimal, 50.0, which precedes the analyzed window's absolute start. -/
theorem C6_preview_cue_counterexample :
    load_analysis_window_offset (20016/100) = 5004/100 ∧
    detect_preview_start [] [] 0 22050 (20016/100) (5004/100) 30 = 50 ∧
    (50 : ℚ) < 5004/100 := by
  refine ⟨?_, ?_, by norm_num⟩
  · norm_num [load_analysis_window_offset, min_def, max_def]
  · norm_num [detect_preview_start, pyRound1, roundHalfEven, min_def, max_def]

/-- C6 (amended): a track no longer than `preview_length + 5` s gets cue 0;
otherwise, with the default 30 s preview length, the offset produced by
`load_analysis_window` and a decoded window no longer than requested, the
cue plus 30 s never exceeds the duration, and the cue never precedes the
window's absolute start by more than the 0.05 s one-decimal rounding
slack. -/
theorem C6_preview_cue (onset_env rms : List ℚ) (ySize sr : ℕ) (d : ℚ)
    (hd : 35 < d)
    (hlen : (ySize : ℚ) / (sr : ℚ) ≤ load_analysis_window_window d) :
    (∀ (oe r : List ℚ) (n s : ℕ) (d2 off p : ℚ), d2 < p + 5 →
      detect_preview_start oe r n s d2 off p = 0) ∧
    load_analysis_window_offset d - 1/20 ≤
      detect_preview_start onset_env rms ySize sr d (load_analysis_window_offset d) 30 ∧
    detect_preview_start onset_env rms ySize sr d (load_analysis_window_offset d) 30 + 30 ≤ d := by
  have part1 : ∀ (oe r : List ℚ) (n s : ℕ) (d2 off p : ℚ), d2 < p + 5 →
      detect_preview_start oe r n s d2 off p = 0 := by
    intro oe r n s d2 off p hlt
    unfold detect_preview_start
    rw [if_pos (le_of_lt hlt)]
  have hgeom : 0 ≤ load_analysis_window_offset d ∧
      load_analysis_window_offset d + load_analysis_window_window d ≤ d ∧
      load_analysis_window_offset d + 34 + 1/20 ≤ d := by
    unfold load_analysis_window_offset load_analysis_window_window
    split_ifs with h180
    · exact ⟨le_refl 0, by linarith, by linarith⟩
    · push_neg at h180
      have hW72 : (72 : ℚ) ≤ min 120 (d * 0.4) := le_min (by norm_num) (by linarith)
      have hW120 : min 120 (d * 0.4) ≤ 120 := min_le_left _ _
      have hdW : (0 : ℚ) ≤ d - min 120 (d * 0.4) := by linarith
      have hmax : max (d - min 120 (d * 0.4)) 0 = d - min 120 (d * 0.4) := max_eq_left hdW
      have hoffB := (min_le_right (max 30 (d * 0.25))
        (max (d - min 120 (d * 0.4)) 0)).trans (le_of_eq hmax)
      refine ⟨le_min (le_trans (by norm_num) (le_max_left 30 (d * 0.25)))
        (le_max_right _ _), by linarith, by linarith⟩
  obtain ⟨hA, hB, hD⟩ := hgeom
  have h35 : ¬ (d ≤ 30 + 5) := by push_neg; linarith
  have main : load_analysis_window_offset d - 1/20 ≤
      detect_preview_start onset_env rms ySize sr d (load_analysis_window_offset d) 30 ∧
      detect_preview_start onset_env rms ySize sr d (load_analysis_window_offset d) 30 + 30 ≤ d := by
    simp only [detect_preview_start]
    rw [if_neg h35]
    by_cases hel : onset_env = [] ∨ rms = []
    · rw [if_pos hel]
      exact pyRound1_clamp_bounds hA le_rfl (by linarith)
    · rw [if_neg hel]
      by_cases hL0 : max ((ySize : ℚ) / (sr : ℚ) - 30) 0 ≤ 0
      · rw [if_pos hL0]
        exact pyRound1_clamp_bounds hA le_rfl (by linarith)
      · rw [if_neg hL0]
        push_neg at hL0
        have hLeq : max ((ySize : ℚ) / (sr : ℚ) - 30) 0 = (ySize : ℚ) / (sr : ℚ) - 30 := by
          rcases max_choice ((ySize : ℚ) / (sr : ℚ) - 30) 0 with h | h
          · exact h
          · rw [h] at hL0
            exact absurd hL0 (lt_irrefl 0)
        set L := max ((ySize : ℚ) / (sr : ℚ) - 30) 0 with hLdef
        set S := List.zipWith (fun o r => (0.65 * o + 0.35 * r : ℚ))
          (normalize_series onset_env) (normalize_series rms) with hSdef
        have hcb := preview_local_start_le S sr L
        have hLW : L ≤ load_analysis_window_window d - 30 := by
          rw [hLeq]
          linarith [hlen]
        apply pyRound1_clamp_bounds hA (le_add_of_nonneg_right (le_max_right _ _))
        rcases le_total (preview_local_start S sr (min 8 L) L - 4) 0 with hc | hc
        · rw [max_eq_right hc]
          linarith
        · rw [max_eq_left hc]
          rcases max_choice (8 : ℚ) L with hm | hm
          · rw [hm] at hcb
            linarith
          · rw [hm] at hcb
            linarith
  exact ⟨part1, main.1, main.2⟩

/-- C6 witness: the amended theorem at a 100 s track with a trivial
one-frame saliency input. -/
theorem C6_preview_cue_witness :
    (35 : ℚ) < 100 ∧
    ((0 : ℕ) : ℚ) / ((22050 : ℕ) : ℚ) ≤ load_analysis_window_window 100 ∧
    (load_analysis_window_offset 100 - 1/20 ≤
      detect_preview_start [1] [1] 0 22050 100 (load_analysis_window_offset 100) 30 ∧
     detect_preview_start [1] [1] 0 22050 100 (load_analysis_window_offset 100) 30 + 30 ≤ 100) := by
  have h1 : (35 : ℚ) < 100 := by norm_num
  have h2 : ((0 : ℕ) : ℚ) / ((22050 : ℕ) : ℚ) ≤ load_analysis_window_window 100 := by
    norm_num [load_analysis_window_window]
  exact ⟨h1, h2, (C6_preview_cue [1] [1] 0 22050 100 h1 h2).2⟩

end DeepCrate
